import Mathlib

/-!
Verification development for the news-alert backend (`src/main.py`).

Strings are modelled as `List Char`.  Python's `str.strip`, `str.count`,
`re.split("[\n,]+", ·)`, `re.sub(r"<[^>]+>", "", ·)` and the two
`datetime.strptime` formats used by the code are given executable shallow
embeddings below, each one translated from the corresponding source
function.  Dates are a `(year, month, day)` structure with proleptic
Gregorian month lengths; the fixed UTC+9 zone (`Asia/Seoul`, constant
+09:00 for the modern dates this service handles) is modelled by explicit
nine-hour shifts.
-/

/-- Shorthand used only to write concrete test strings. -/
def chars (s : String) : List Char := s.toList

/-- The whitespace class of Python's `str.strip()` (ASCII part; the code only
ever strips ASCII payloads). Matches the `\s` class of `re` as well. -/
def pyIsSpaceB (c : Char) : Bool :=
  c = ' ' || c = '\t' || c = '\n' || c = '\r' || c = '\x0b' || c = '\x0c'

/-- Python `s.strip()`: drop leading and trailing whitespace. -/
def pyStrip (s : List Char) : List Char :=
  ((s.dropWhile pyIsSpaceB).reverse.dropWhile pyIsSpaceB).reverse

/-- `listBeginsWith n l` is true when `n` is a prefix of `l`. -/
def listBeginsWith : List Char → List Char → Bool
  | [], _ => true
  | _ :: _, [] => false
  | a :: as, b :: bs => a = b && listBeginsWith as bs

/-- Scanner for Python `hay.count(n0 :: nt)` (needle non-empty): counts
non-overlapping occurrences scanning left to right, greedily skipping the
remaining `skip` characters of the last match, exactly as CPython does
(after a match at some position the scan resumes right after it). -/
def countScan (n0 : Char) (nt : List Char) : List Char → Nat → Nat
  | [], _ => 0
  | c :: rest, 0 =>
    if listBeginsWith (n0 :: nt) (c :: rest) then
      1 + countScan n0 nt rest nt.length
    else
      countScan n0 nt rest 0
  | _ :: rest, skip + 1 => countScan n0 nt rest skip

/-- Python `hay.count(needle)` (for the empty needle Python returns
`len(hay) + 1`; the scoring code guards the empty case before calling). -/
def pyCount (needle hay : List Char) : Nat :=
  match needle with
  | [] => hay.length + 1
  | n0 :: nt => countScan n0 nt hay 0

/-- `_relevance_score` from `src/main.py`: strip the three strings, score 0
for an empty (stripped) keyword, else twice the title count plus the
description count. -/
def relevance_score (keyword title description : List Char) : Nat :=
  if pyStrip keyword = [] then 0
  else
    pyCount (pyStrip keyword) (pyStrip title) * 2 +
      pyCount (pyStrip keyword) (pyStrip description)

/-- Separator class of the `re.split(r"[\n,]+", raw)` in `parse_keywords`. -/
def isKwSep (c : Char) : Bool := c = '\n' || c = ','

/-- `re.split(r"[\n,]+", s)`: split on maximal runs of separators (runs
collapse; a leading or trailing run contributes an empty field). -/
def splitSeps : List Char → List (List Char)
  | [] => [[]]
  | c :: cs =>
    if isKwSep c then
      match cs with
      | [] => [[], []]
      | d :: _ =>
        if isKwSep d then splitSeps cs else [] :: splitSeps cs
    else
      match splitSeps cs with
      | [] => [[c]]
      | h :: t => (c :: h) :: t

/-- `parse_keywords` from `src/main.py`: empty/whitespace-only input gives
`[]`; otherwise split on comma/newline runs, strip each part, drop empties. -/
def parse_keywords (raw : List Char) : List (List Char) :=
  if pyStrip raw = [] then []
  else ((splitSeps raw).map pyStrip).filter (fun p => p ≠ [])

/-- Civil (proleptic Gregorian) calendar date. -/
structure Date where
  y : Nat
  m : Nat
  d : Nat
deriving DecidableEq, Repr

/-- Gregorian leap-year rule (as implemented by Python `datetime`). -/
def isLeap (y : Nat) : Bool := (y % 4 = 0 && y % 100 ≠ 0) || y % 400 = 0

/-- Length of a month, as validated by Python `datetime`. -/
def daysInMonth (y m : Nat) : Nat :=
  if m = 2 then (if isLeap y then 29 else 28)
  else if m = 4 ∨ m = 6 ∨ m = 9 ∨ m = 11 then 30
  else 31

/-- The dates representable by Python `datetime.date` (year ≥ 1). -/
def validDate (dt : Date) : Prop :=
  1 ≤ dt.y ∧ 1 ≤ dt.m ∧ dt.m ≤ 12 ∧ 1 ≤ dt.d ∧ dt.d ≤ daysInMonth dt.y dt.m

instance (dt : Date) : Decidable (validDate dt) := by
  unfold validDate; infer_instance

/-- Previous civil day (used for `timedelta(days=7)` subtraction). -/
def predDay (dt : Date) : Date :=
  if 2 ≤ dt.d then ⟨dt.y, dt.m, dt.d - 1⟩
  else if 2 ≤ dt.m then ⟨dt.y, dt.m - 1, daysInMonth dt.y (dt.m - 1)⟩
  else ⟨dt.y - 1, 12, 31⟩

/-- Next civil day (used for the +9-hour zone shift rolling over midnight). -/
def succDay (dt : Date) : Date :=
  if dt.d < daysInMonth dt.y dt.m then ⟨dt.y, dt.m, dt.d + 1⟩
  else if dt.m < 12 then ⟨dt.y, dt.m + 1, 1⟩
  else ⟨dt.y + 1, 1, 1⟩

/-- `dt - timedelta(days=n)` on civil dates. -/
def subDays : Date → Nat → Date
  | dt, 0 => dt
  | dt, n + 1 => subDays (predDay dt) n

/-- Strict order on civil dates, the order `datetime` comparison induces. -/
def dateLt (a b : Date) : Prop :=
  a.y < b.y ∨ (a.y = b.y ∧ (a.m < b.m ∨ (a.m = b.m ∧ a.d < b.d)))

instance (a b : Date) : Decidable (dateLt a b) := by
  unfold dateLt; infer_instance

/-- Digit character for a digit value. -/
def digitChar (n : Nat) : Char := Char.ofNat (48 + n)

/-- Numeric value of a digit character. -/
def digitVal (c : Char) : Nat := c.toNat - 48

/-- Value of a digit string (most significant first). -/
def digitsToNat (l : List Char) : Nat :=
  l.foldl (fun a c => a * 10 + digitVal c) 0

/-- Two-digit zero-padded rendering (`%m`, `%d`, for values < 100). -/
def format2 (n : Nat) : List Char := [digitChar (n / 10 % 10), digitChar (n % 10)]

/-- Four-digit rendering of a year (`%Y` for 1000 ≤ y ≤ 9999, the only years
this service's clock can produce). -/
def format4 (n : Nat) : List Char :=
  [digitChar (n / 1000 % 10), digitChar (n / 100 % 10),
   digitChar (n / 10 % 10), digitChar (n % 10)]

/-- `dt.strftime("%Y-%m-%d")`. -/
def formatDate (dt : Date) : List Char :=
  format4 dt.y ++ '-' :: format2 dt.m ++ '-' :: format2 dt.d

/-- `datetime.strptime(s, "%Y-%m-%d")` as a partial civil-date reader.
CPython compiles the format to the regex
`(\d\d\d\d)-(1[0-2]|0[1-9]|[1-9])-(3[01]|[12]\d|0[1-9]|[1-9])` (full match,
backtracking) and then validates the day against the month via the
`datetime` constructor.  With backtracking resolved this is: four year
digits, a dash, a maximal 1–2 digit run valued 1..12, a dash, a maximal
1–2 digit run valued 1..31 consuming the remainder, day within the month,
year ≥ 1. -/
def parseDate (s : List Char) : Option Date :=
  match s with
  | a :: b :: c :: e :: '-' :: rest =>
    if a.isDigit && b.isDigit && c.isDigit && e.isDigit then
      let y := digitsToNat [a, b, c, e]
      let mpart := rest.takeWhile Char.isDigit
      match rest.dropWhile Char.isDigit with
      | '-' :: dpart =>
        if mpart.length = 0 ∨ 2 < mpart.length then none
        else
          let m := digitsToNat mpart
          if dpart.length = 0 ∨ 2 < dpart.length ∨ ¬ dpart.all Char.isDigit then none
          else
            let d := digitsToNat dpart
            if 1 ≤ y ∧ 1 ≤ m ∧ m ≤ 12 ∧ 1 ≤ d ∧ d ≤ daysInMonth y m then
              some ⟨y, m, d⟩
            else none
      | _ => none
    else none
  | _ => none

/-- `validate_date_format` from `src/main.py`. -/
def validate_date_format (s : List Char) : Bool := (parseDate s).isSome

/-- Wall-clock timestamp (date plus time of day) as parsed by `strptime`. -/
structure WallTime where
  date : Date
  hour : Nat
  minute : Nat
  second : Nat
deriving DecidableEq, Repr

/-- Read a maximal digit run of length 1–2 together with its value (the
resolved behaviour of the backtracking `strptime` number fields, which are
always followed by a non-digit in the formats used here). -/
def readNat2 (s : List Char) : Option (Nat × List Char) :=
  let run := s.takeWhile Char.isDigit
  if run.length = 1 ∨ run.length = 2 then
    some (digitsToNat run, s.dropWhile Char.isDigit)
  else none

/-- `strptime` renders literal whitespace in a format as `\s+`: require at
least one whitespace character and skip the run. -/
def dropWs1 (s : List Char) : Option (List Char) :=
  match s with
  | c :: r => if pyIsSpaceB c then some (r.dropWhile pyIsSpaceB) else none
  | [] => none

/-- `%b` month abbreviations (C locale), compared case-insensitively. -/
def monthOfAbbrev (l : List Char) : Option Nat :=
  let low := l.map Char.toLower
  if low = chars "jan" then some 1
  else if low = chars "feb" then some 2
  else if low = chars "mar" then some 3
  else if low = chars "apr" then some 4
  else if low = chars "may" then some 5
  else if low = chars "jun" then some 6
  else if low = chars "jul" then some 7
  else if low = chars "aug" then some 8
  else if low = chars "sep" then some 9
  else if low = chars "oct" then some 10
  else if low = chars "nov" then some 11
  else if low = chars "dec" then some 12
  else none

/-- `%a` weekday abbreviations (C locale), compared case-insensitively.
`strptime` parses but never cross-checks the weekday against the date. -/
def isWeekdayAbbrev (l : List Char) : Bool :=
  let low := l.map Char.toLower
  low = chars "mon" || low = chars "tue" || low = chars "wed" ||
  low = chars "thu" || low = chars "fri" || low = chars "sat" ||
  low = chars "sun"

/-- Reader for the shared `"%a, %d %b %Y %H:%M:%S"` portion of the two
upstream `pubDate` formats, returning the wall time and the unconsumed
rest of the string.  Field ranges follow the CPython `strptime` regexes
plus `datetime` constructor validation: day 1..31 and within the month,
hour ≤ 23, minute ≤ 59, second ≤ 59 (`%S` admits 60/61 but the
constructor rejects them), year a four-digit value ≥ 1. -/
def parseRfcCore (s : List Char) : Option (WallTime × List Char) :=
  if isWeekdayAbbrev (s.take 3) then
    match s.drop 3 with
    | ',' :: r1 =>
      match dropWs1 r1 with
      | some r2 =>
        match readNat2 r2 with
        | some (day, r3) =>
          if 1 ≤ day ∧ day ≤ 31 then
            match dropWs1 r3 with
            | some r4 =>
              match monthOfAbbrev (r4.take 3) with
              | some mon =>
                match dropWs1 (r4.drop 3) with
                | some r5 =>
                  let yrun := r5.takeWhile Char.isDigit
                  if yrun.length = 4 then
                    let y := digitsToNat yrun
                    match dropWs1 (r5.dropWhile Char.isDigit) with
                    | some r6 =>
                      match readNat2 r6 with
                      | some (h, ':' :: r7) =>
                        match readNat2 r7 with
                        | some (mi, ':' :: r8) =>
                          match readNat2 r8 with
                          | some (sec, r9) =>
                            if h ≤ 23 ∧ mi ≤ 59 ∧ sec ≤ 59 ∧ 1 ≤ y ∧
                                day ≤ daysInMonth y mon then
                              some (⟨⟨y, mon, day⟩, h, mi, sec⟩, r9)
                            else none
                          | _ => none
                        | _ => none
                      | _ => none
                    | none => none
                  else none
                | none => none
              | none => none
            | none => none
          else none
        | none => none
      | none => none
    | _ => none
  else none

/-- `datetime.strptime(s, "%a, %d %b %Y %H:%M:%S")` (the Naver `pubDate`
format after the code drops everything from the first `+` on).  The string
must be consumed entirely. -/
def parseRfcNoTz (s : List Char) : Option WallTime :=
  match parseRfcCore s with
  | some (w, []) => some w
  | _ => none

/-- `datetime.strptime(s, "%a, %d %b %Y %H:%M:%S %Z")` (the Google News
RSS `pubDate` format): the core wall time, whitespace, then a zone
abbreviation (`GMT`/`UTC` are the names the feed emits and `strptime`
recognises, case-insensitively), consuming the string. -/
def parseRfcWithTz (s : List Char) : Option WallTime :=
  match parseRfcCore s with
  | some (w, rest) =>
    match dropWs1 rest with
    | some tz =>
      let low := tz.map Char.toLower
      if low = chars "gmt" ∨ low = chars "utc" then some w else none
    | none => none
  | _ => none

/-- `dt.replace(tzinfo=pytz.UTC).astimezone(KST)` and then taking the civil
date: Asia/Seoul is a fixed +09:00 for the dates this service sees, so the
date rolls over exactly when hour + 9 passes midnight. -/
def utcWallToKstDate (w : WallTime) : Date :=
  if 24 ≤ w.hour + 9 then succDay w.date else w.date

/-- `pub_date.split("+")[0]`: everything before the first `+`. -/
def beforePlus (s : List Char) : List Char := s.takeWhile (fun c => c ≠ '+')

/-- The `pubDate`-to-`formatted_date` logic of `get_naver_news`
(src/main.py lines 534–544): empty upstream date or a parse failure falls
back to today's UTC+9 date; otherwise the code drops the zone offset,
parses the bare wall clock, stamps it as UTC and converts to UTC+9. -/
def naver_formatted_date (pubDate : List Char) (today : Date) : List Char :=
  if pubDate = [] then formatDate today
  else
    match parseRfcNoTz (pyStrip (beforePlus pubDate)) with
    | some w => formatDate (utcWallToKstDate w)
    | none => formatDate today

/-- `re.sub(r"<[^>]+>", "", s)` needs the suffix after the first `>`. -/
def afterGt : List Char → Option (List Char)
  | [] => none
  | c :: cs => if c = '>' then some cs else afterGt cs

/-- True when the list starts with `>` (an empty candidate tag `<>`, which
`[^>]+` cannot match). -/
def headIsGt : List Char → Bool
  | '>' :: _ => true
  | _ => false

/-- Scanner for `re.sub(r"<[^>]+>", "", s)`, structurally recursive on a
fuel bounded below by the string length (each step consumes at least one
character, and `afterGt` returns a strict suffix, so the fuel never runs
out when initialised with the length). -/
def stripTagsAux : Nat → List Char → List Char
  | _, [] => []
  | 0, s => s
  | fuel + 1, c :: rest =>
    if c = '<' then
      if headIsGt rest then c :: stripTagsAux fuel rest
      else
        match afterGt rest with
        | some suf => stripTagsAux fuel suf
        | none => c :: stripTagsAux fuel rest
    else c :: stripTagsAux fuel rest

/-- `re.sub(r"<[^>]+>", "", s)`: remove every leftmost-match tag, i.e. each
`<` through the first following `>` provided at least one non-`>` character
sits between them; a `<` with no such match is kept and scanning resumes at
the next character. -/
def stripTags (s : List Char) : List Char := stripTagsAux s.length s

/-- Common article record produced by both news providers
(`NewsSearchItem` in `src/main.py`). -/
structure NewsSearchItemM where
  title : List Char
  link : List Char
  pubDate : List Char
  keyword : Option (List Char)
deriving DecidableEq, Repr

/-- One raw record of the Naver search response's `items[]`. -/
structure NaverRawItem where
  title : List Char
  description : List Char
  link : List Char
  pubDate : List Char
deriving DecidableEq, Repr

/-- The comparison `candidates.sort(key=lambda x: -x[0])` sorts by:
`a` before `b` when `a`'s score is at least `b`'s.  Python's sort is
stable, so the code's sort equals the (unique) stable sort under this
relation, which `List.insertionSort` computes. -/
def scoreGe (a b : Nat × NewsSearchItemM) : Prop := b.1 ≤ a.1

instance : DecidableRel scoreGe := fun a b => Nat.decLe b.1 a.1

instance : IsTotal (Nat × NewsSearchItemM) scoreGe :=
  ⟨fun a b => Nat.le_total b.1 a.1⟩

instance : IsTrans (Nat × NewsSearchItemM) scoreGe :=
  ⟨fun _ _ _ h1 h2 => Nat.le_trans h2 h1⟩

/-- `request_display` of `get_naver_news`: 30-candidate pool when the
relevance filter is on, else the requested count, capped at 100. -/
def naver_request_display (useFilter : Bool) (maxResults : Nat) : Nat :=
  if useFilter then min 30 100 else min maxResults 100

/-- The per-item loop of `get_naver_news` (src/main.py lines 529–552):
strip tags from title and description, normalise the date, and pair each
article with its relevance score (0 when the filter is off). -/
def naverCandidates (kw : List Char) (useFilter : Bool) (today : Date)
    (raw : List NaverRawItem) : List (Nat × NewsSearchItemM) :=
  raw.map (fun it =>
    let title := stripTags it.title
    let description := stripTags it.description
    let item : NewsSearchItemM :=
      ⟨title, it.link, naver_formatted_date it.pubDate today, none⟩
    (if useFilter then relevance_score kw title description else 0, item))

/-- The selection step of `get_naver_news` (lines 554–556): stable-sort by
descending score when the filter is on, then truncate and drop scores. -/
def get_naver_news_select (kw : List Char) (useFilter : Bool)
    (maxResults : Nat) (today : Date) (raw : List NaverRawItem) :
    List NewsSearchItemM :=
  let candidates := naverCandidates kw useFilter today raw
  let sorted := if useFilter then List.insertionSort scoreGe candidates else candidates
  (sorted.take maxResults).map Prod.snd

/-- The error outcomes of the `/news/search` pipeline that the model
distinguishes (each corresponds to one `HTTPException` site). -/
inductive SearchError
  | badStartDate (raw : List Char)
  | badEndDate (raw : List Char)
  | startAfterEnd
  | missingKeyword
  | rssEmptyKeyword
  | rssUpstreamFailure
deriving DecidableEq, Repr

/-- `get_naver_news` as called from `search_news`, abstracted over the
upstream response `nr query sort display`: re-validate the (already
resolved) date strings, then fetch and post-process.  The window is used
for validation only — it is never part of the upstream query. -/
def get_naver_news_items (nr : List Char → List Char → Nat → List NaverRawItem)
    (kw startS endS : List Char) (maxResults : Nat) (sortBy : List Char)
    (useFilter : Bool) (today : Date) : Except SearchError (List NewsSearchItemM) :=
  if startS ≠ [] ∧ ¬ validate_date_format startS then .error (.badStartDate startS)
  else if endS ≠ [] ∧ ¬ validate_date_format endS then .error (.badEndDate endS)
  else .ok (get_naver_news_select kw useFilter maxResults today
    (nr kw sortBy (naver_request_display useFilter maxResults)))

/-- One parsed `channel/item` element of the RSS feed (each child may be
missing). -/
structure RssItemRaw where
  title : Option (List Char)
  link : Option (List Char)
  pubDate : Option (List Char)
deriving DecidableEq, Repr

/-- The body of an RSS fetch as seen by `get_google_news` after the HTTP
layer: the XML may fail to parse (`ET.fromstring` raises), or parse to a
document whose `channel` element may be absent. -/
inductive RssBody
  | malformedXml
  | doc (channel : Option (List RssItemRaw))
deriving DecidableEq, Repr

/-- The `pubDate` handling of `get_google_news` (lines 423–439): missing
or empty dates and parse failures fall back to today's UTC+9 date;
otherwise the GMT wall time is converted to the UTC+9 civil date. -/
def google_formatted_date (pubDate : List Char) (today : Date) : List Char :=
  if pubDate = [] then formatDate today
  else
    match parseRfcWithTz (pyStrip pubDate) with
    | some w => formatDate (utcWallToKstDate w)
    | none => formatDate today

/-- Conversion of one RSS `item` element (lines 413–447). -/
def googleConvert (today : Date) (it : RssItemRaw) : NewsSearchItemM :=
  ⟨stripTags (it.title.getD []), it.link.getD [],
   google_formatted_date (it.pubDate.getD []) today, none⟩

/-- `get_google_news` as called from `search_news`, abstracted over the
fetched body `gb keyword`: empty keyword is rejected up front; a body
that fails XML parsing propagates out of the generic `except Exception`
handler as an HTTP 500; a parse without a `channel` element yields `[]`;
otherwise the first `max_results` items are converted in feed order. -/
def get_google_news_items (gb : List Char → RssBody) (kw : List Char)
    (maxResults : Nat) (today : Date) : Except SearchError (List NewsSearchItemM) :=
  if pyStrip kw = [] then .error .rssEmptyKeyword
  else
    match gb kw with
    | .malformedXml => .error .rssUpstreamFailure
    | .doc none => .ok []
    | .doc (some items) => .ok ((items.take maxResults).map (googleConvert today))

/-- Outcome of the single webhook POST attempt, as the transport reports
it to `send_slack_notification`. -/
inductive PostOutcome
  | response (status : Nat)
  | timeout
  | connError
  | otherError
deriving DecidableEq, Repr

/-- `send_slack_notification` (lines 600–659), returning the delivery
flag and the number of network calls issued: a missing (or empty, Python
falsy) webhook URL short-circuits before any I/O; otherwise one POST is
made and `raise_for_status` failures (4xx/5xx), timeouts and any other
request errors are all caught and collapsed to `False`. -/
def send_slack_notification_core (webhook : Option (List Char))
    (outcome : PostOutcome) : Bool × Nat :=
  match webhook with
  | none => (false, 0)
  | some url =>
    if url = [] then (false, 0)
    else
      match outcome with
      | .response status => (if 400 ≤ status ∧ status < 600 then false else true, 1)
      | _ => (false, 1)

/-- One record of the Custom Search response (`ResearchSearchItem`). -/
structure ResearchSearchItemM where
  title : List Char
  link : List Char
  snippet : List Char
  matched_keyword : List Char
deriving DecidableEq, Repr

/-- The query parameters `_fetch_research_page` sends for one page:
`num` is pinned to 10 and `start` is the supplied start index. -/
structure ResearchPageParams where
  q : List Char
  num : Nat
  start : Nat
deriving DecidableEq, Repr

/-- Parameter construction of `_fetch_research_page` (lines 246–253). -/
def fetch_research_page_params (kw : List Char) (startIndex : Nat) : ResearchPageParams :=
  ⟨kw, 10, startIndex⟩

/-- The fixed page-start scheme of `get_research_results` (line 319). -/
def researchStarts : List Nat := [1, 11, 21]

/-- The per-keyword pagination loop of `get_research_results`
(lines 318–330), abstracted over the upstream pages: before each fetch
stop if the collected count has reached the requested maximum; after each
fetch stop if the page was short (< 10 items).  Returns the collected
items together with the list of start indices actually requested. -/
def collectPagesAux (pages : Nat → List ResearchSearchItemM) (maxr : Nat) :
    List Nat → List ResearchSearchItemM → List ResearchSearchItemM × List Nat
  | [], acc => (acc, [])
  | idx :: rest, acc =>
    if maxr ≤ acc.length then (acc, [])
    else
      let page := pages idx
      if page.length < 10 then (acc ++ page, [idx])
      else
        let r := collectPagesAux pages maxr rest (acc ++ page)
        (r.1, idx :: r.2)

/-- `get_research_results` for one keyword (line 331 truncates the
collected list to the requested maximum). -/
def get_research_results_collect (pages : Nat → List ResearchSearchItemM)
    (maxr : Nat) : List ResearchSearchItemM × List Nat :=
  let r := collectPagesAux pages maxr researchStarts []
  (r.1.take maxr, r.2)

/-- Resolution of one optional raw date: a missing — or, by Python
falsiness, empty — value falls back to the supplied default string
(`search_news` lines 753–761). -/
def resolveDateRaw (raw : Option (List Char)) (dflt : List Char) : List Char :=
  match raw with
  | none => dflt
  | some s => if s = [] then dflt else s

/-- The date-window resolution and validation of `search_news`
(lines 750–783): the end date defaults to today's UTC+9 date and the
start date to seven days earlier; the resolved strings are validated
(start first) and re-parsed; start after end is rejected.  Returns the
resolved strings and their parsed dates. -/
def normalize_window (startRaw endRaw : Option (List Char)) (now : Date) :
    Except SearchError (List Char × List Char × Date × Date) :=
  match parseDate (resolveDateRaw startRaw (formatDate (subDays now 7))) with
  | none => .error (.badStartDate (resolveDateRaw startRaw (formatDate (subDays now 7))))
  | some sd =>
    match parseDate (resolveDateRaw endRaw (formatDate now)) with
    | none => .error (.badEndDate (resolveDateRaw endRaw (formatDate now)))
    | some ed =>
      if dateLt ed sd then .error .startAfterEnd
      else .ok (resolveDateRaw startRaw (formatDate (subDays now 7)),
        resolveDateRaw endRaw (formatDate now), sd, ed)

/-- The two news providers `/news/search` can dispatch to. -/
inductive ProviderM
  | naver
  | google
deriving DecidableEq, Repr

/-- The keyword loop of `search_news` (lines 795–816): fetch per keyword
in order, re-tag every returned item with the keyword that produced it,
and append; the first provider failure aborts the whole aggregation. -/
def aggregate_fetch (fetchOne : List Char → Except SearchError (List NewsSearchItemM)) :
    List (List Char) → List NewsSearchItemM → Except SearchError (List NewsSearchItemM)
  | [], acc => .ok acc
  | kw :: rest, acc =>
    match fetchOne kw with
    | .error e => .error e
    | .ok items =>
      aggregate_fetch fetchOne rest (acc ++ items.map (fun it => { it with keyword := some kw }))

/-- The per-keyword provider dispatch of `search_news` (lines 797–807):
the Naver branch receives the resolved window (it validates it but never
queries with it), the RSS branch receives only the keyword and the fixed
cap of 30. -/
def provider_fetch (nr : List Char → List Char → Nat → List NaverRawItem)
    (gb : List Char → RssBody) (now : Date) (startS endS sortBy : List Char)
    (useFilter : Bool) :
    ProviderM → List Char → Except SearchError (List NewsSearchItemM)
  | ProviderM.naver =>
    fun kw => get_naver_news_items nr kw startS endS 10 sortBy useFilter now
  | ProviderM.google =>
    fun kw => get_google_news_items gb kw 30 now

/-- Everything `search_news` does before the Slack attempt: resolve and
validate the window, parse the keywords (empty list is a 400), dispatch
the per-keyword fetches to the chosen provider, and aggregate. -/
def search_pipeline (nr : List Char → List Char → Nat → List NaverRawItem)
    (gb : List Char → RssBody) (now : Date) (provider : ProviderM)
    (keywordRaw : List Char) (startRaw endRaw : Option (List Char))
    (sortBy : List Char) (useFilter : Bool) :
    Except SearchError (List (List Char) × List Char × List Char × List NewsSearchItemM) :=
  match normalize_window startRaw endRaw now with
  | .error e => .error e
  | .ok (startS, endS, _, _) =>
    if parse_keywords keywordRaw = [] then .error .missingKeyword
    else
      match aggregate_fetch (provider_fetch nr gb now startS endS sortBy useFilter provider)
          (parse_keywords keywordRaw) [] with
      | .error e => .error e
      | .ok items => .ok (parse_keywords keywordRaw, startS, endS, items)

/-- The caller-facing delivery report (`message` field of the response):
a success line carrying the item count, or the fixed failure line. -/
inductive SlackMsg
  | delivered (n : Nat)
  | deliveryFailed
deriving DecidableEq, Repr

/-- The fields of `NewsSearchResponse` that the core computes. -/
structure NewsSearchResponseM where
  keywords : List (List Char)
  periodStart : List Char
  periodEnd : List Char
  news : List NewsSearchItemM
  slack_sent : Bool
  message : SlackMsg
deriving DecidableEq, Repr

/-- `search_news` (lines 742–836): run the pipeline, attempt the Slack
delivery (whose outcome is reported but can never fail the request), and
assemble the response. -/
def search_news_core (nr : List Char → List Char → Nat → List NaverRawItem)
    (gb : List Char → RssBody) (now : Date) (webhook : Option (List Char))
    (outcome : PostOutcome) (provider : ProviderM) (keywordRaw : List Char)
    (startRaw endRaw : Option (List Char)) (sortBy : List Char)
    (useFilter : Bool) : Except SearchError NewsSearchResponseM :=
  match search_pipeline nr gb now provider keywordRaw startRaw endRaw sortBy useFilter with
  | .error e => .error e
  | .ok (kws, startS, endS, items) =>
    let sl := send_slack_notification_core webhook outcome
    .ok ⟨kws, startS, endS, items, sl.1,
      if sl.1 then .delivered items.length else .deliveryFailed⟩

/-- Reader for an explicit `±HHMM` UTC offset. -/
def parseOffsetHHMM (s : List Char) : Option Int :=
  match s with
  | sign :: a :: b :: c :: d :: [] =>
    if (sign = '+' ∨ sign = '-') ∧ a.isDigit ∧ b.isDigit ∧ c.isDigit ∧ d.isDigit then
      let v : Int := (digitsToNat [a, b] * 60 + digitsToNat [c, d] : Nat)
      some (if sign = '-' then -v else v)
    else none
  | _ => none

/-- Modelled from the spec: "Upstream date format is a fixed RFC-1123-like
string with an explicit UTC offset; parsed, then converted to local-zone
civil date" with `publishedDate` "normalized to the local civil date in
UTC+9, regardless of upstream timezone".  The instant denoted by the wall
time and its stated offset is converted to UTC+9 and its civil date taken. -/
def spec_published_date_kst (s : List Char) : Option Date :=
  let core := s.takeWhile (fun c => !(c == '+' || c == '-'))
  let offPart := pyStrip (s.dropWhile (fun c => !(c == '+' || c == '-')))
  match parseRfcNoTz (pyStrip core), parseOffsetHHMM offPart with
  | some w, some offMin =>
    let t : Int := (w.hour * 60 + w.minute : Nat) + (540 - offMin)
    if t < 0 then some (predDay w.date)
    else if t < 1440 then some w.date
    else if t < 2880 then some (succDay w.date)
    else some (succDay (succDay w.date))
  | _, _ => none

/-- Stub upstream item for the concrete pagination example. -/
def researchStubItem : ResearchSearchItemM := ⟨chars "t", chars "l", chars "s", chars "k"⟩

/-- Stub page sequence of sizes (10, 10, 7) at starts 1, 11, 21. -/
def researchStubPages (i : Nat) : List ResearchSearchItemM :=
  if i = 21 then List.replicate 7 researchStubItem
  else List.replicate 10 researchStubItem

/-- Per-term concatenation with keyword tagging: the intended meaning of
the aggregation loop (concatenate the per-term result lists in term order,
each item tagged with its term). -/
def concatTagged (f : List Char → List NewsSearchItemM) :
    List (List Char) → List NewsSearchItemM
  | [] => []
  | kw :: rest =>
    (f kw).map (fun it => { it with keyword := some kw }) ++ concatTagged f rest

/-- Agreement of two `search_news` outcomes up to the Slack-delivery and
period fields: both fail with the same error, or both succeed with the
same keywords and news list. -/
def resultsAgree (r1 r2 : Except SearchError NewsSearchResponseM) : Prop :=
  match r1, r2 with
  | .ok a, .ok b =>
    a.news = b.news ∧ a.keywords = b.keywords ∧
    a.periodStart = b.periodStart ∧ a.periodEnd = b.periodEnd
  | .error e1, .error e2 => e1 = e2
  | _, _ => False

/-- Stub RSS bodies realising the spec's aggregation example: `[a1]` for
"AI" and `[b1, b2]` for "5G". -/
def gbStub (kw : List Char) : RssBody :=
  if kw = chars "AI" then
    RssBody.doc (some [⟨some (chars "a1"), some (chars "u1"), none⟩])
  else if kw = chars "5G" then
    RssBody.doc (some [⟨some (chars "b1"), some (chars "u2"), none⟩,
      ⟨some (chars "b2"), some (chars "u3"), none⟩])
  else RssBody.doc (some [])

/-! ## Helper lemmas about the string model -/

theorem dropWhile_head_false {p : Char → Bool} :
    ∀ (l : List Char) {c : Char} {r : List Char},
      l.dropWhile p = c :: r → p c = false := by
  intro l
  induction l with
  | nil => intro c r h; simp [List.dropWhile] at h
  | cons a as ih =>
    intro c r h
    by_cases hp : p a
    · rw [List.dropWhile_cons_of_pos hp] at h
      exact ih h
    · rw [List.dropWhile_cons_of_neg hp] at h
      cases h
      exact Bool.of_not_eq_true hp

theorem length_dropWhile_le (p : Char → Bool) :
    ∀ l : List Char, (l.dropWhile p).length ≤ l.length := by
  intro l
  induction l with
  | nil => simp
  | cons a as ih =>
    by_cases hp : p a
    · rw [List.dropWhile_cons_of_pos hp]
      simp only [List.length_cons]
      omega
    · rw [List.dropWhile_cons_of_neg hp]

theorem getLast?_dropWhile {p : Char → Bool} :
    ∀ (l : List Char), l.dropWhile p ≠ [] →
      (l.dropWhile p).getLast? = l.getLast? := by
  intro l
  induction l with
  | nil => intro h; simp [List.dropWhile] at h
  | cons a as ih =>
    intro h
    by_cases hp : p a
    · rw [List.dropWhile_cons_of_pos hp] at h ⊢
      rw [ih h]
      have has : as ≠ [] := by
        intro hnil
        exact h (by simp [hnil, List.dropWhile])
      cases as with
      | nil => exact absurd rfl has
      | cons b bs => exact List.getLast?_cons_cons.symm
    · rw [List.dropWhile_cons_of_neg hp]

theorem dropWhile_of_head_false {p : Char → Bool} {l : List Char}
    (h : ∀ c, l.head? = some c → p c = false) : l.dropWhile p = l := by
  cases l with
  | nil => simp [List.dropWhile]
  | cons a as =>
    have := h a (by simp)
    rw [List.dropWhile_cons_of_neg (by simp [this])]

theorem pyStrip_head_not_space {l : List Char} {c : Char}
    (h : (pyStrip l).head? = some c) : pyIsSpaceB c = false := by
  unfold pyStrip at h
  rw [List.head?_reverse] at h
  set B := ((l.dropWhile pyIsSpaceB).reverse.dropWhile pyIsSpaceB) with hB
  have hBne : B ≠ [] := by
    intro hnil
    rw [hnil] at h
    simp at h
  have := getLast?_dropWhile (l.dropWhile pyIsSpaceB).reverse (by rw [← hB]; exact hBne)
  rw [← hB] at this
  rw [this] at h
  rw [List.getLast?_reverse] at h
  cases hA : l.dropWhile pyIsSpaceB with
  | nil => rw [hA] at h; simp at h
  | cons a as =>
    rw [hA] at h
    simp at h
    cases h
    exact dropWhile_head_false l hA

theorem pyStrip_getLast_not_space {l : List Char} {c : Char}
    (h : (pyStrip l).getLast? = some c) : pyIsSpaceB c = false := by
  unfold pyStrip at h
  rw [List.getLast?_reverse] at h
  cases hB : (l.dropWhile pyIsSpaceB).reverse.dropWhile pyIsSpaceB with
  | nil => rw [hB] at h; simp at h
  | cons b bs =>
    rw [hB] at h
    simp at h
    cases h
    exact dropWhile_head_false _ hB

theorem pyStrip_of_clean {l : List Char}
    (h1 : ∀ c, l.head? = some c → pyIsSpaceB c = false)
    (h2 : ∀ c, l.getLast? = some c → pyIsSpaceB c = false) :
    pyStrip l = l := by
  unfold pyStrip
  rw [dropWhile_of_head_false h1]
  rw [dropWhile_of_head_false (by intro c hc; rw [List.head?_reverse] at hc; exact h2 c hc)]
  exact List.reverse_reverse l

theorem pyStrip_idem (l : List Char) : pyStrip (pyStrip l) = pyStrip l := by
  by_cases h : pyStrip l = []
  · rw [h]; rfl
  · exact pyStrip_of_clean
      (fun c hc => pyStrip_head_not_space hc)
      (fun c hc => pyStrip_getLast_not_space hc)

/-! ## C1 — commercial-news `pubDate` conversion ignores the stated offset -/

/-- C1: for the Naver `pubDate` string `"Tue, 04 Feb 2025 23:30:00 +0900"`
the code (which discards the `+0900` offset and stamps the bare wall clock
as UTC before shifting to UTC+9) produces the civil date 2025-02-05,
while the date of the denoted instant in UTC+9 — the spec's
"converted to local-zone civil date", honoring the stated offset — is
2025-02-04.  The code adds nine hours to a wall clock that is already in
UTC+9, so every article published at 15:00 or later is dated one day in
the future. -/
theorem naver_pubdate_offset_bug :
    naver_formatted_date (chars "Tue, 04 Feb 2025 23:30:00 +0900") ⟨2025, 2, 10⟩ =
      chars "2025-02-05" ∧
    spec_published_date_kst (chars "Tue, 04 Feb 2025 23:30:00 +0900") =
      some ⟨2025, 2, 4⟩ := by
  constructor
  · rfl
  · rfl

/-! ## C7 — RSS feed structure handling -/

/-- C7 counterexample: a malformed (unparseable) XML body does not yield
an empty list — `ET.fromstring` raises, the generic `except Exception`
handler catches it, and the client raises an HTTP 500 upstream error. -/
theorem google_malformed_xml_counterexample :
    get_google_news_items (fun _ => RssBody.malformedXml) (chars "AI") 30
      ⟨2025, 6, 10⟩ = Except.error SearchError.rssUpstreamFailure := by
  rfl

/-- C7 (amended): for a non-empty keyword, a parsed document lacking the
`channel` element yields an empty list without error, while a body that
fails XML parsing is an upstream error (HTTP 500), not an empty list. -/
theorem google_feed_structure (gb : List Char → RssBody) (kw : List Char)
    (maxR : Nat) (today : Date) (hkw : pyStrip kw ≠ []) :
    (gb kw = RssBody.doc none →
      get_google_news_items gb kw maxR today = Except.ok []) ∧
    (gb kw = RssBody.malformedXml →
      get_google_news_items gb kw maxR today =
        Except.error SearchError.rssUpstreamFailure) := by
  constructor
  · intro hgb
    simp [get_google_news_items, hkw, hgb]
  · intro hgb
    simp [get_google_news_items, hkw, hgb]

/-- Witness for `google_feed_structure` at a concrete feed and keyword. -/
theorem google_feed_structure_witness :
    get_google_news_items (fun _ => RssBody.doc none) (chars "AI") 30
      ⟨2025, 6, 10⟩ = Except.ok [] :=
  (google_feed_structure (fun _ => RssBody.doc none) (chars "AI") 30
    ⟨2025, 6, 10⟩ (by decide)).1 rfl

/-! ## C8 — keyword parsing does not deduplicate -/

/-- C8 counterexample: the parsed list for `"AI,AI"` contains the term
`"AI"` twice, so the output is not deduplicated. -/
theorem parse_keywords_duplicate_counterexample :
    ¬ (parse_keywords (chars "AI,AI")).Nodup := by
  decide

/-- Every parsed keyword is a non-empty, trimmed string (shared helper). -/
theorem parse_keywords_mem_props :
    ∀ (raw t : List Char), t ∈ parse_keywords raw → t ≠ [] ∧ pyStrip t = t := by
  intro raw t ht
  unfold parse_keywords at ht
  by_cases hraw : pyStrip raw = []
  · simp [hraw] at ht
  · rw [if_neg hraw] at ht
    rw [List.mem_filter] at ht
    obtain ⟨hmem, hne⟩ := ht
    rw [List.mem_map] at hmem
    obtain ⟨p, _, hp⟩ := hmem
    refine ⟨by simpa using hne, ?_⟩
    rw [← hp]
    exact pyStrip_idem p

/-- C8 (amended): the parser trims and orders the terms and drops empty
segments but performs no deduplication — a term occurring in two segments
appears once per segment, as `"AI,AI"` shows. -/
theorem parse_keywords_trimmed_no_dedup :
    (∀ (raw t : List Char), t ∈ parse_keywords raw → t ≠ [] ∧ pyStrip t = t) ∧
    parse_keywords (chars "AI,AI") = [chars "AI", chars "AI"] := by
  exact ⟨parse_keywords_mem_props, by decide⟩

/-- Witness for `parse_keywords_trimmed_no_dedup` at a concrete input. -/
theorem parse_keywords_trimmed_witness :
    chars "A" ≠ [] ∧ pyStrip (chars "A") = chars "A" :=
  parse_keywords_trimmed_no_dedup.1 (chars " A ,B") (chars "A") (by decide)

/-! ## C2 — commercial-news ranking: stable descending sort, then truncate -/

theorem filter_orderedInsert_score (x : Nat × NewsSearchItemM) (s : Nat) :
    ∀ l : List (Nat × NewsSearchItemM),
      (l.orderedInsert scoreGe x).filter (fun c => c.1 == s) =
        if x.1 = s then x :: l.filter (fun c => c.1 == s)
        else l.filter (fun c => c.1 == s) := by
  intro l
  induction l with
  | nil =>
    by_cases hx : x.1 = s <;> simp [List.orderedInsert, hx]
  | cons y ys ih =>
    by_cases hr : scoreGe x y
    · have hins : (y :: ys).orderedInsert scoreGe x = x :: y :: ys := by
        simp [List.orderedInsert, hr]
      rw [hins]
      by_cases hx : x.1 = s <;> by_cases hy : y.1 = s <;>
        simp [List.filter_cons, hx, hy]
    · have hins : (y :: ys).orderedInsert scoreGe x = y :: ys.orderedInsert scoreGe x := by
        simp [List.orderedInsert, hr]
      rw [hins]
      have hlt : x.1 < y.1 := by
        unfold scoreGe at hr
        omega
      by_cases hx : x.1 = s
      · have hy : ¬ y.1 = s := by omega
        simp [List.filter_cons, hx, hy, ih]
      · by_cases hy : y.1 = s <;> simp [List.filter_cons, hx, hy, ih]

theorem filter_insertionSort_score (s : Nat) :
    ∀ l : List (Nat × NewsSearchItemM),
      (List.insertionSort scoreGe l).filter (fun c => c.1 == s) =
        l.filter (fun c => c.1 == s) := by
  intro l
  induction l with
  | nil => rfl
  | cons a l ih =>
    rw [List.insertionSort]
    rw [filter_orderedInsert_score]
    by_cases ha : a.1 = s <;> simp [List.filter_cons, ha, ih]

/-- C2: with ranking requested, `get_naver_news` takes the top
`max_results` of the stable descending-score sort of the upstream
candidates — the sorted list is pairwise descending, and for every score
the candidates carrying that score keep their upstream relative order
(stability); with ranking off, every candidate scores 0 and the output is
the upstream order truncated to `max_results`. -/
theorem naver_ranking_behavior (kw : List Char) (maxR : Nat) (today : Date)
    (raw : List NaverRawItem) :
    (get_naver_news_select kw true maxR today raw =
      ((List.insertionSort scoreGe (naverCandidates kw true today raw)).take maxR).map
        Prod.snd) ∧
    List.Sorted scoreGe (List.insertionSort scoreGe (naverCandidates kw true today raw)) ∧
    (∀ s : Nat,
      (List.insertionSort scoreGe (naverCandidates kw true today raw)).filter
          (fun c => c.1 == s) =
        (naverCandidates kw true today raw).filter (fun c => c.1 == s)) ∧
    (get_naver_news_select kw false maxR today raw =
      ((naverCandidates kw false today raw).map Prod.snd).take maxR) ∧
    (∀ c ∈ naverCandidates kw false today raw, c.1 = 0) := by
  refine ⟨rfl, List.sorted_insertionSort scoreGe _, fun s => filter_insertionSort_score s _,
    ?_, ?_⟩
  · show ((naverCandidates kw false today raw).take maxR).map Prod.snd = _
    rw [← List.map_take]
  · intro c hc
    unfold naverCandidates at hc
    rw [List.mem_map] at hc
    obtain ⟨it, _, h⟩ := hc
    rw [← h]
    rfl

/-- Witness for `naver_ranking_behavior`: stability at a concrete upstream
response and score. -/
theorem naver_ranking_witness :
    (List.insertionSort scoreGe
        (naverCandidates (chars "AI") true ⟨2025, 6, 10⟩
          [⟨chars "t", chars "d", chars "l", []⟩])).filter (fun c => c.1 == 0) =
      (naverCandidates (chars "AI") true ⟨2025, 6, 10⟩
        [⟨chars "t", chars "d", chars "l", []⟩]).filter (fun c => c.1 == 0) :=
  (naver_ranking_behavior (chars "AI") 10 ⟨2025, 6, 10⟩
      [⟨chars "t", chars "d", chars "l", []⟩]).2.2.1 0

/-! ## C4 — web-search pagination -/

theorem collectPagesAux_spec (pages : Nat → List ResearchSearchItemM) (maxr : Nat) :
    ∀ (starts : List Nat) (acc : List ResearchSearchItemM),
      (∃ t, (collectPagesAux pages maxr starts acc).2 ++ t = starts) ∧
      ((collectPagesAux pages maxr starts acc).2 ≠ [] → acc.length < maxr) ∧
      ((collectPagesAux pages maxr starts acc).1 =
        acc ++ ((collectPagesAux pages maxr starts acc).2.map pages).flatten) ∧
      (∀ k, k + 1 < (collectPagesAux pages maxr starts acc).2.length →
        10 ≤ (pages ((collectPagesAux pages maxr starts acc).2.getD k 0)).length ∧
        acc.length +
            ((((collectPagesAux pages maxr starts acc).2.take (k + 1)).map
              (fun i => (pages i).length)).sum) < maxr) := by
  intro starts
  induction starts with
  | nil =>
    intro acc
    refine ⟨⟨[], rfl⟩, ?_, by simp [collectPagesAux], ?_⟩
    · intro h; exact absurd rfl h
    · intro k hk; simp [collectPagesAux] at hk
  | cons idx rest ih =>
    intro acc
    by_cases hstop : maxr ≤ acc.length
    · have hr : collectPagesAux pages maxr (idx :: rest) acc = (acc, []) := by
        simp [collectPagesAux, hstop]
      refine ⟨⟨idx :: rest, by rw [hr]; rfl⟩, ?_, by simp [hr], ?_⟩
      · intro h; rw [hr] at h; exact absurd rfl h
      · intro k hk; rw [hr] at hk; simp at hk
    · by_cases hshort : (pages idx).length < 10
      · have hr : collectPagesAux pages maxr (idx :: rest) acc = (acc ++ pages idx, [idx]) := by
          simp [collectPagesAux, hstop, hshort]
        refine ⟨⟨rest, by rw [hr]; rfl⟩, ?_, by simp [hr], ?_⟩
        · intro _; omega
        · intro k hk
          rw [hr] at hk
          simp at hk
      · have hr : collectPagesAux pages maxr (idx :: rest) acc =
            ((collectPagesAux pages maxr rest (acc ++ pages idx)).1,
              idx :: (collectPagesAux pages maxr rest (acc ++ pages idx)).2) := by
          simp [collectPagesAux, hstop, hshort]
        obtain ⟨⟨t, hpre⟩, hnonempty, hjoin, hk4⟩ := ih (acc ++ pages idx)
        refine ⟨⟨t, by rw [hr]; simp [hpre]⟩, fun _ => by omega, ?_, ?_⟩
        · rw [hr]
          simp only [List.map_cons, List.flatten_cons]
          rw [hjoin, List.append_assoc]
        · intro k hk
          rw [hr] at hk ⊢
          simp only [List.length_cons] at hk
          cases k with
          | zero =>
            refine ⟨by simpa using Nat.le_of_not_lt hshort, ?_⟩
            have hne : (collectPagesAux pages maxr rest (acc ++ pages idx)).2 ≠ [] := by
              intro hnil
              rw [hnil] at hk
              simp at hk
            have := hnonempty hne
            rw [List.length_append] at this
            simpa using this
          | succ k =>
            have hk' : k + 1 < (collectPagesAux pages maxr rest (acc ++ pages idx)).2.length := by
              omega
            obtain ⟨h10, hsum⟩ := hk4 k hk'
            refine ⟨by simpa using h10, ?_⟩
            rw [List.length_append] at hsum
            simp only [List.take_succ_cons, List.map_cons, List.sum_cons]
            omega

/-- C4: the web-search collection requests pages at start indices from the
fixed scheme `[1, 11, 21]` with page size pinned to 10, in order; a start
index is only requested while every earlier page was full (≥ 10 items)
and the count collected so far is below the requested total; the result is
truncated to the requested total; and on the concrete page sequence of
sizes (10, 10, 7) with requested maximum 30 it returns 27 items after
requesting exactly the three starts (no request follows the short page). -/
theorem research_pagination (pages : Nat → List ResearchSearchItemM) (maxr : Nat) :
    (∀ (kw : List Char) (i : Nat), (fetch_research_page_params kw i).num = 10) ∧
    (∃ t, (get_research_results_collect pages maxr).2 ++ t = researchStarts) ∧
    ((get_research_results_collect pages maxr).1.length ≤ maxr) ∧
    (∀ k, k + 1 < (get_research_results_collect pages maxr).2.length →
      10 ≤ (pages ((get_research_results_collect pages maxr).2.getD k 0)).length ∧
      ((((get_research_results_collect pages maxr).2.take (k + 1)).map
        (fun i => (pages i).length)).sum) < maxr) ∧
    ((get_research_results_collect researchStubPages 30).1.length = 27 ∧
      (get_research_results_collect researchStubPages 30).2 = [1, 11, 21]) := by
  obtain ⟨hpre, _, _, hk4⟩ := collectPagesAux_spec pages maxr researchStarts []
  refine ⟨fun kw i => rfl, ?_, ?_, ?_, by decide⟩
  · exact hpre
  · exact List.length_take_le maxr _
  · intro k hk
    obtain ⟨h10, hsum⟩ := hk4 k hk
    exact ⟨h10, by simpa using hsum⟩

/-- Witness for `research_pagination`: after the first full page of the
stub sequence a second request is issued only because the page was full
and the total had not been reached. -/
theorem research_pagination_witness :
    10 ≤ (researchStubPages ((get_research_results_collect researchStubPages 30).2.getD 0 0)).length ∧
    ((((get_research_results_collect researchStubPages 30).2.take 1).map
      (fun i => (researchStubPages i).length)).sum) < 30 :=
  (research_pagination researchStubPages 30).2.2.2.1 0 (by decide)

/-! ## C5 — aggregation across keywords -/

theorem aggregate_fetch_ok (fetchOne : List Char → Except SearchError (List NewsSearchItemM))
    (f : List Char → List NewsSearchItemM) (hok : ∀ kw, fetchOne kw = Except.ok (f kw)) :
    ∀ (kws : List (List Char)) (acc : List NewsSearchItemM),
      aggregate_fetch fetchOne kws acc = Except.ok (acc ++ concatTagged f kws) := by
  intro kws
  induction kws with
  | nil => intro acc; simp [aggregate_fetch, concatTagged]
  | cons kw rest ih =>
    intro acc
    rw [aggregate_fetch, hok kw]
    exact (ih _).trans (by simp [concatTagged, List.append_assoc])

theorem concatTagged_length (f : List Char → List NewsSearchItemM) :
    ∀ kws : List (List Char),
      (concatTagged f kws).length = (kws.map (fun kw => (f kw).length)).sum := by
  intro kws
  induction kws with
  | nil => rfl
  | cons kw rest ih => simp [concatTagged, ih]

/-- C5: the keyword loop of `search_news` produces exactly the per-term
concatenation in term order, tagging each item with its term and never
deduplicating across terms (the output length is the sum of the per-term
lengths, so a URL returned under two terms appears once per term); the
response's keyword list is the parsed term list; and on the spec's stub
example (`[a1]` for "AI", `[b1, b2]` for "5G") the full endpoint yields
`[a1(kw=AI), b1(kw=5G), b2(kw=5G)]` with `keywords = ["AI", "5G"]`. -/
theorem aggregation_behavior :
    (∀ (fetchOne : List Char → Except SearchError (List NewsSearchItemM))
        (f : List Char → List NewsSearchItemM),
      (∀ kw, fetchOne kw = Except.ok (f kw)) →
      ∀ kws, aggregate_fetch fetchOne kws [] = Except.ok (concatTagged f kws)) ∧
    (∀ (f : List Char → List NewsSearchItemM) (kws : List (List Char)),
      (concatTagged f kws).length = (kws.map (fun kw => (f kw).length)).sum) ∧
    (∀ (f : List Char → List NewsSearchItemM) (kw : List Char) (kws : List (List Char)),
      concatTagged f (kw :: kws) =
        (f kw).map (fun it => { it with keyword := some kw }) ++ concatTagged f kws) ∧
    (∀ (kw : List Char) (items : List NewsSearchItemM) (it : NewsSearchItemM),
      it ∈ items.map (fun x => { x with keyword := some kw }) → it.keyword = some kw) ∧
    (search_news_core (fun _ _ _ => []) gbStub ⟨2025, 6, 10⟩ none PostOutcome.timeout
        ProviderM.google (chars "AI, 5G") (some (chars "2025-06-03"))
        (some (chars "2025-06-10")) (chars "sim") true =
      Except.ok ⟨[chars "AI", chars "5G"], chars "2025-06-03", chars "2025-06-10",
        [⟨chars "a1", chars "u1", chars "2025-06-10", some (chars "AI")⟩,
         ⟨chars "b1", chars "u2", chars "2025-06-10", some (chars "5G")⟩,
         ⟨chars "b2", chars "u3", chars "2025-06-10", some (chars "5G")⟩],
        false, SlackMsg.deliveryFailed⟩) := by
  refine ⟨fun fetchOne f hok kws => aggregate_fetch_ok fetchOne f hok kws [],
    concatTagged_length, fun f kw kws => rfl, ?_, by rfl⟩
  intro kw items it hit
  rw [List.mem_map] at hit
  obtain ⟨x, _, hx⟩ := hit
  rw [← hx]

/-- Witness for `aggregation_behavior`: the aggregation equation at a
concrete total provider. -/
theorem aggregation_behavior_witness :
    aggregate_fetch (fun _ => Except.ok []) [chars "AI"] [] =
      Except.ok (concatTagged (fun _ => []) [chars "AI"]) :=
  aggregation_behavior.1 (fun _ => Except.ok []) (fun _ => []) (fun _ => rfl) [chars "AI"]

/-! ## C9 — Slack delivery can never fail the request -/

/-- C9: with no webhook configured delivery reports "not sent" with zero
network calls; with a webhook, timeouts, connection errors, unexpected
errors and HTTP 4xx/5xx statuses are all caught and reported as "not
sent" after the single call; and two runs of `search_news` differing only
in webhook configuration and transport outcome agree on success/failure,
keywords, period and news — delivery failure never fails the request. -/
theorem slack_delivery_never_fails :
    (∀ o, send_slack_notification_core none o = (false, 0)) ∧
    (∀ (url : List Char) (o : PostOutcome), url ≠ [] →
      (o = PostOutcome.timeout ∨ o = PostOutcome.connError ∨ o = PostOutcome.otherError) →
      send_slack_notification_core (some url) o = (false, 1)) ∧
    (∀ (url : List Char) (s : Nat), url ≠ [] → 400 ≤ s → s < 600 →
      send_slack_notification_core (some url) (PostOutcome.response s) = (false, 1)) ∧
    (∀ nr gb now wh o wh' o' p kraw sR eR sb uf,
      resultsAgree (search_news_core nr gb now wh o p kraw sR eR sb uf)
        (search_news_core nr gb now wh' o' p kraw sR eR sb uf)) := by
  refine ⟨fun o => rfl, ?_, ?_, ?_⟩
  · intro url o hurl ho
    rcases ho with h | h | h <;> subst h <;> simp [send_slack_notification_core, hurl]
  · intro url s hurl h4 h6
    simp [send_slack_notification_core, hurl]
    omega
  · intro nr gb now wh o wh' o' p kraw sR eR sb uf
    unfold search_news_core resultsAgree
    cases search_pipeline nr gb now p kraw sR eR sb uf with
    | error e => exact rfl
    | ok v => exact ⟨rfl, rfl, rfl, rfl⟩

/-- Witness for `slack_delivery_never_fails`: a concrete timeout is
reported as "not sent" after one call. -/
theorem slack_delivery_witness :
    send_slack_notification_core (some (chars "hook")) PostOutcome.timeout = (false, 1) :=
  slack_delivery_never_fails.2.1 (chars "hook") PostOutcome.timeout (by decide)
    (Or.inl rfl)

/-! ## C10 — the RSS path never sees the date window -/

theorem google_fetch_total (gb : List Char → RssBody) (kw : List Char) (now : Date)
    (hs : pyStrip kw ≠ []) (hm : gb kw ≠ RssBody.malformedXml) :
    ∃ its, get_google_news_items gb kw 30 now = Except.ok its := by
  unfold get_google_news_items
  rw [if_neg hs]
  cases hgb : gb kw with
  | malformedXml => exact absurd hgb hm
  | doc ch =>
    cases ch with
    | none => exact ⟨[], rfl⟩
    | some items => exact ⟨_, rfl⟩

theorem aggregate_fetch_total (fetchOne : List Char → Except SearchError (List NewsSearchItemM)) :
    ∀ (kws : List (List Char)), (∀ kw ∈ kws, ∃ its, fetchOne kw = Except.ok its) →
      ∀ acc, ∃ L, aggregate_fetch fetchOne kws acc = Except.ok L := by
  intro kws
  induction kws with
  | nil => intro _ acc; exact ⟨acc, rfl⟩
  | cons kw rest ih =>
    intro hok acc
    obtain ⟨its, hits⟩ := hok kw (List.mem_cons_self kw rest)
    obtain ⟨L, hL⟩ := ih (fun k hk => hok k (List.mem_cons_of_mem kw hk)) 
      (acc ++ its.map (fun it => { it with keyword := some kw }))
    refine ⟨L, ?_⟩
    rw [aggregate_fetch, hits]
    exact hL

/-- C10: two `/news/search` requests on the RSS provider that differ only
in their (valid, ordered) date windows return identical news lists — the
window is validated and echoed in the period, but never reaches the RSS
retrieval. -/
theorem rss_date_window_noninterference
    (nr : List Char → List Char → Nat → List NaverRawItem)
    (gb : List Char → RssBody) (now : Date) (wh : Option (List Char))
    (o : PostOutcome) (kraw s1 e1 s2 e2 sb : List Char) (uf : Bool)
    (sd1 ed1 sd2 ed2 : Date)
    (hp1 : parseDate s1 = some sd1) (hp2 : parseDate e1 = some ed1)
    (hw1 : ¬ dateLt ed1 sd1)
    (hp3 : parseDate s2 = some sd2) (hp4 : parseDate e2 = some ed2)
    (hw2 : ¬ dateLt ed2 sd2)
    (hkw : parse_keywords kraw ≠ [])
    (hgb : ∀ kw, gb kw ≠ RssBody.malformedXml) :
    ∃ r1 r2,
      search_news_core nr gb now wh o ProviderM.google kraw (some s1) (some e1) sb uf =
        Except.ok r1 ∧
      search_news_core nr gb now wh o ProviderM.google kraw (some s2) (some e2) sb uf =
        Except.ok r2 ∧
      r1.news = r2.news := by
  have hne1 : s1 ≠ [] := fun h => by rw [h] at hp1; exact Option.noConfusion hp1
  have hne2 : e1 ≠ [] := fun h => by rw [h] at hp2; exact Option.noConfusion hp2
  have hne3 : s2 ≠ [] := fun h => by rw [h] at hp3; exact Option.noConfusion hp3
  have hne4 : e2 ≠ [] := fun h => by rw [h] at hp4; exact Option.noConfusion hp4
  have hres1 : ∀ d, resolveDateRaw (some s1) d = s1 := by
    intro d; simp [resolveDateRaw, hne1]
  have hres2 : ∀ d, resolveDateRaw (some e1) d = e1 := by
    intro d; simp [resolveDateRaw, hne2]
  have hres3 : ∀ d, resolveDateRaw (some s2) d = s2 := by
    intro d; simp [resolveDateRaw, hne3]
  have hres4 : ∀ d, resolveDateRaw (some e2) d = e2 := by
    intro d; simp [resolveDateRaw, hne4]
  have hnorm1 : normalize_window (some s1) (some e1) now =
      Except.ok (s1, e1, sd1, ed1) := by
    unfold normalize_window
    rw [hres1, hres2, hp1]
    simp only [hp2]
    rw [if_neg hw1]
  have hnorm2 : normalize_window (some s2) (some e2) now =
      Except.ok (s2, e2, sd2, ed2) := by
    unfold normalize_window
    rw [hres3, hres4, hp3]
    simp only [hp4]
    rw [if_neg hw2]
  have hgf : ∀ startS endS,
      provider_fetch nr gb now startS endS sb uf ProviderM.google =
      fun kw => get_google_news_items gb kw 30 now := fun _ _ => rfl
  obtain ⟨L, hL⟩ := aggregate_fetch_total
    (fun kw => get_google_news_items gb kw 30 now) (parse_keywords kraw)
    (fun kw hk =>
      google_fetch_total gb kw now
        (by
          obtain ⟨hne, hstrip⟩ := parse_keywords_mem_props kraw kw hk
          rw [hstrip]; exact hne)
        (hgb kw)) []
  have hrun1 : search_news_core nr gb now wh o ProviderM.google kraw
      (some s1) (some e1) sb uf =
      Except.ok ⟨parse_keywords kraw, s1, e1, L,
        (send_slack_notification_core wh o).1,
        if (send_slack_notification_core wh o).1 then SlackMsg.delivered L.length
        else SlackMsg.deliveryFailed⟩ := by
    unfold search_news_core search_pipeline
    simp only [hnorm1]
    rw [if_neg hkw, hgf, hL]
  have hrun2 : search_news_core nr gb now wh o ProviderM.google kraw
      (some s2) (some e2) sb uf =
      Except.ok ⟨parse_keywords kraw, s2, e2, L,
        (send_slack_notification_core wh o).1,
        if (send_slack_notification_core wh o).1 then SlackMsg.delivered L.length
        else SlackMsg.deliveryFailed⟩ := by
    unfold search_news_core search_pipeline
    simp only [hnorm2]
    rw [if_neg hkw, hgf, hL]
  exact ⟨_, _, hrun1, hrun2, rfl⟩

/-- Witness for `rss_date_window_noninterference` at concrete windows. -/
theorem rss_date_window_witness :
    ∃ r1 r2,
      search_news_core (fun _ _ _ => []) (fun _ => RssBody.doc none) ⟨2025, 6, 10⟩
          none PostOutcome.timeout ProviderM.google (chars "AI")
          (some (chars "2025-06-01")) (some (chars "2025-06-10")) (chars "sim") true =
        Except.ok r1 ∧
      search_news_core (fun _ _ _ => []) (fun _ => RssBody.doc none) ⟨2025, 6, 10⟩
          none PostOutcome.timeout ProviderM.google (chars "AI")
          (some (chars "2025-01-01")) (some (chars "2025-01-02")) (chars "sim") true =
        Except.ok r2 ∧
      r1.news = r2.news :=
  rss_date_window_noninterference (fun _ _ _ => []) (fun _ => RssBody.doc none)
    ⟨2025, 6, 10⟩ none PostOutcome.timeout (chars "AI") (chars "2025-06-01")
    (chars "2025-06-10") (chars "2025-01-01") (chars "2025-01-02") (chars "sim") true
    ⟨2025, 6, 1⟩ ⟨2025, 6, 10⟩ ⟨2025, 1, 1⟩ ⟨2025, 1, 2⟩
    (by decide) (by decide) (by decide) (by decide) (by decide) (by decide)
    (by decide) (fun _ h => RssBody.noConfusion h)

/-! ## C6 — date-window normalization -/

theorem digitChar_isDigit {n : Nat} (h : n < 10) : (digitChar n).isDigit = true := by
  interval_cases n <;> decide

theorem digitVal_digitChar {n : Nat} (h : n < 10) : digitVal (digitChar n) = n := by
  interval_cases n <;> decide

theorem daysInMonth_le_31 (y m : Nat) : daysInMonth y m ≤ 31 := by
  unfold daysInMonth
  split_ifs <;> omega

theorem daysInMonth_pos (y m : Nat) : 1 ≤ daysInMonth y m := by
  unfold daysInMonth
  split_ifs <;> omega

theorem parseDate_formatDate (dt : Date) (hv : validDate dt)
    (hy1 : 1000 ≤ dt.y) (hy2 : dt.y ≤ 9999) :
    parseDate (formatDate dt) = some dt := by
  obtain ⟨hgy, hgm, hm12, hgd, hdm⟩ := hv
  have hd31 : dt.d ≤ 31 := le_trans hdm (daysInMonth_le_31 dt.y dt.m)
  have e1 : (digitChar (dt.y / 1000 % 10)).isDigit = true := digitChar_isDigit (Nat.mod_lt _ (by norm_num))
  have e2 : (digitChar (dt.y / 100 % 10)).isDigit = true := digitChar_isDigit (Nat.mod_lt _ (by norm_num))
  have e3 : (digitChar (dt.y / 10 % 10)).isDigit = true := digitChar_isDigit (Nat.mod_lt _ (by norm_num))
  have e4 : (digitChar (dt.y % 10)).isDigit = true := digitChar_isDigit (Nat.mod_lt _ (by norm_num))
  have e5 : (digitChar (dt.m / 10 % 10)).isDigit = true := digitChar_isDigit (Nat.mod_lt _ (by norm_num))
  have e6 : (digitChar (dt.m % 10)).isDigit = true := digitChar_isDigit (Nat.mod_lt _ (by norm_num))
  have e7 : (digitChar (dt.d / 10 % 10)).isDigit = true := digitChar_isDigit (Nat.mod_lt _ (by norm_num))
  have e8 : (digitChar (dt.d % 10)).isDigit = true := digitChar_isDigit (Nat.mod_lt _ (by norm_num))
  have hdash : ('-').isDigit = false := by decide
  unfold formatDate format4 format2
  simp only [List.cons_append, List.nil_append]
  unfold parseDate
  simp only [e1, e2, e3, e4, e5, e6, e7, e8, hdash, Bool.and_self, Bool.and_true,
    Bool.true_and, if_true, if_false, List.takeWhile_cons, List.dropWhile_cons,
    List.takeWhile_nil, List.dropWhile_nil, Bool.false_eq_true, ite_false, ite_true,
    List.length_cons, List.length_nil, List.all_cons, List.all_nil]
  have v1 := digitVal_digitChar (show dt.y / 1000 % 10 < 10 from Nat.mod_lt _ (by norm_num))
  have v2 := digitVal_digitChar (show dt.y / 100 % 10 < 10 from Nat.mod_lt _ (by norm_num))
  have v3 := digitVal_digitChar (show dt.y / 10 % 10 < 10 from Nat.mod_lt _ (by norm_num))
  have v4 := digitVal_digitChar (show dt.y % 10 < 10 from Nat.mod_lt _ (by norm_num))
  have v5 := digitVal_digitChar (show dt.m / 10 % 10 < 10 from Nat.mod_lt _ (by norm_num))
  have v6 := digitVal_digitChar (show dt.m % 10 < 10 from Nat.mod_lt _ (by norm_num))
  have v7 := digitVal_digitChar (show dt.d / 10 % 10 < 10 from Nat.mod_lt _ (by norm_num))
  have v8 := digitVal_digitChar (show dt.d % 10 < 10 from Nat.mod_lt _ (by norm_num))
  have hy : digitsToNat [digitChar (dt.y / 1000 % 10), digitChar (dt.y / 100 % 10),
      digitChar (dt.y / 10 % 10), digitChar (dt.y % 10)] = dt.y := by
    simp [digitsToNat, v1, v2, v3, v4]
    omega
  have hm : digitsToNat [digitChar (dt.m / 10 % 10), digitChar (dt.m % 10)] = dt.m := by
    simp [digitsToNat, v5, v6]
    omega
  have hd : digitsToNat [digitChar (dt.d / 10 % 10), digitChar (dt.d % 10)] = dt.d := by
    simp [digitsToNat, v7, v8]
    omega
  rw [hy, hm, hd]
  rw [if_neg (by omega), if_neg (by simp), if_pos ⟨hgy, hgm, hm12, hgd, hdm⟩]

theorem dateLt_trans {a b c : Date} (h1 : dateLt a b) (h2 : dateLt b c) : dateLt a c := by
  unfold dateLt at *
  omega

theorem dateLt_asymm {a b : Date} (h : dateLt a b) : ¬ dateLt b a := by
  unfold dateLt at *
  omega

theorem predDay_props (dt : Date) (hv : validDate dt) (hy : 2 ≤ dt.y) :
    validDate (predDay dt) ∧ dt.y - 1 ≤ (predDay dt).y ∧ (predDay dt).y ≤ dt.y ∧
      dateLt (predDay dt) dt := by
  obtain ⟨h1, h2, h3, h4, h5⟩ := hv
  have hp : 1 ≤ daysInMonth dt.y (dt.m - 1) := daysInMonth_pos _ _
  have h31 : daysInMonth (dt.y - 1) 12 = 31 := by norm_num [daysInMonth]
  unfold predDay
  split_ifs with hd hm <;> simp only [validDate, dateLt, true_and, and_true, true_or, or_true] <;> omega

theorem subDays_props : ∀ (n : Nat) (dt : Date), validDate dt → n + 1 ≤ dt.y →
    validDate (subDays dt n) ∧ dt.y - n ≤ (subDays dt n).y ∧ (subDays dt n).y ≤ dt.y ∧
      (subDays dt n = dt ∨ dateLt (subDays dt n) dt) := by
  intro n
  induction n with
  | zero =>
    intro dt hv _
    have h0 : subDays dt 0 = dt := rfl
    rw [h0]
    exact ⟨hv, by omega, le_refl _, Or.inl rfl⟩
  | succ n ih =>
    intro dt hv hy
    have hstep : subDays dt (n + 1) = subDays (predDay dt) n := rfl
    obtain ⟨hpv, hpy1, hpy2, hplt⟩ := predDay_props dt hv (by omega)
    obtain ⟨hv2, hy1, hy2, hlt⟩ := ih (predDay dt) hpv (by omega)
    rw [hstep]
    refine ⟨hv2, by omega, by omega, Or.inr ?_⟩
    rcases hlt with he | hlt
    · rw [he]
      exact hplt
    · exact dateLt_trans hlt hplt

theorem not_dateLt_subDays (dt : Date) (n : Nat) (hv : validDate dt) (hy : n + 1 ≤ dt.y) :
    ¬ dateLt dt (subDays dt n) := by
  obtain ⟨_, _, _, hlt⟩ := subDays_props n dt hv hy
  rcases hlt with he | hlt
  · rw [he]
    unfold dateLt
    omega
  · exact fun hcon => dateLt_asymm hlt hcon

/-- C6 (amended): date-window normalization of `search_news`, settled for
every combination of the two optional fields — an absent (or, by Python
falsiness, empty) end date defaults to the UTC+9 "now" date and an
absent/empty start date to that date minus 7 days, each independently of
the other field; the defaulted strings re-parse to exactly the intended
dates; a present non-empty value that does not parse as `YYYY-MM-DD`
fails with the bad-date InvalidInput naming the raw value (start checked
first, and a bad end is reported whether the start was present or
defaulted); after resolution, start strictly after end fails with
start-after-end in every combination; and
`normalize(null, null, now=2025-06-10)` yields 2025-06-03 .. 2025-06-10. -/
theorem date_window_normalization (now : Date)
    (hv : validDate now) (hy1 : 1007 ≤ now.y) (hy2 : now.y ≤ 9999) :
    (parseDate (formatDate now) = some now) ∧
    (parseDate (formatDate (subDays now 7)) = some (subDays now 7)) ∧
    (∀ startRaw : Option (List Char),
      normalize_window startRaw (some []) now = normalize_window startRaw none now) ∧
    (∀ endRaw : Option (List Char),
      normalize_window (some []) endRaw now = normalize_window none endRaw now) ∧
    (normalize_window none none now =
      Except.ok (formatDate (subDays now 7), formatDate now, subDays now 7, now)) ∧
    (∀ (s : List Char) (sd : Date), parseDate s = some sd →
      (¬ dateLt now sd → normalize_window (some s) none now =
        Except.ok (s, formatDate now, sd, now)) ∧
      (dateLt now sd → normalize_window (some s) none now =
        Except.error SearchError.startAfterEnd)) ∧
    (∀ (e : List Char) (ed : Date), parseDate e = some ed →
      (¬ dateLt ed (subDays now 7) → normalize_window none (some e) now =
        Except.ok (formatDate (subDays now 7), e, subDays now 7, ed)) ∧
      (dateLt ed (subDays now 7) → normalize_window none (some e) now =
        Except.error SearchError.startAfterEnd)) ∧
    (∀ s : List Char, s ≠ [] → parseDate s = none →
      ∀ endRaw : Option (List Char),
        normalize_window (some s) endRaw now = Except.error (SearchError.badStartDate s)) ∧
    (∀ e : List Char, e ≠ [] → parseDate e = none →
      normalize_window none (some e) now = Except.error (SearchError.badEndDate e)) ∧
    (∀ (s : List Char) (sd : Date) (e : List Char), parseDate s = some sd →
      e ≠ [] → parseDate e = none →
      normalize_window (some s) (some e) now = Except.error (SearchError.badEndDate e)) ∧
    (∀ (s e : List Char) (sd ed : Date), parseDate s = some sd → parseDate e = some ed →
      (dateLt ed sd →
        normalize_window (some s) (some e) now = Except.error SearchError.startAfterEnd) ∧
      (¬ dateLt ed sd →
        normalize_window (some s) (some e) now = Except.ok (s, e, sd, ed))) ∧
    (normalize_window none none ⟨2025, 6, 10⟩ =
      Except.ok (chars "2025-06-03", chars "2025-06-10", ⟨2025, 6, 3⟩, ⟨2025, 6, 10⟩)) := by
  obtain ⟨hsv1, hsv2, hsv3, _⟩ := subDays_props 7 now hv (by omega)
  have hps : parseDate (formatDate (subDays now 7)) = some (subDays now 7) :=
    parseDate_formatDate _ hsv1 (by omega) (by omega)
  have hpn : parseDate (formatDate now) = some now :=
    parseDate_formatDate _ hv (by omega) (by omega)
  have hnl : ¬ dateLt now (subDays now 7) := not_dateLt_subDays now 7 hv (by omega)
  have rs : resolveDateRaw none (formatDate (subDays now 7)) =
      formatDate (subDays now 7) := rfl
  have re : resolveDateRaw none (formatDate now) = formatDate now := rfl
  refine ⟨hpn, hps, fun startRaw => rfl, fun endRaw => rfl, ?_, ?_, ?_, ?_, ?_, ?_, ?_,
    by rfl⟩
  · unfold normalize_window
    rw [rs, re, hps]
    simp only [hpn]
    rw [if_neg hnl]
  · intro s sd hs
    have hne : s ≠ [] := fun h => by rw [h] at hs; exact Option.noConfusion hs
    have r1 : ∀ d, resolveDateRaw (some s) d = s := by
      intro d; simp [resolveDateRaw, hne]
    constructor
    · intro hlt
      unfold normalize_window
      rw [r1, re, hs]
      simp only [hpn]
      rw [if_neg hlt]
    · intro hlt
      unfold normalize_window
      rw [r1, re, hs]
      simp only [hpn]
      rw [if_pos hlt]
  · intro e ed he
    have hne : e ≠ [] := fun h => by rw [h] at he; exact Option.noConfusion he
    have r2 : ∀ d, resolveDateRaw (some e) d = e := by
      intro d; simp [resolveDateRaw, hne]
    constructor
    · intro hlt
      unfold normalize_window
      rw [rs, r2, hps]
      simp only [he]
      rw [if_neg hlt]
    · intro hlt
      unfold normalize_window
      rw [rs, r2, hps]
      simp only [he]
      rw [if_pos hlt]
  · intro s hne hbad endRaw
    unfold normalize_window
    have r1 : ∀ d, resolveDateRaw (some s) d = s := by
      intro d; simp [resolveDateRaw, hne]
    rw [r1, hbad]
  · intro e hne hbad
    unfold normalize_window
    have r2 : ∀ d, resolveDateRaw (some e) d = e := by
      intro d; simp [resolveDateRaw, hne]
    rw [rs, r2, hps]
    simp only [hbad]
  · intro s sd e hs hne hbad
    have hnes : s ≠ [] := fun h => by rw [h] at hs; exact Option.noConfusion hs
    have r1 : ∀ d, resolveDateRaw (some s) d = s := by
      intro d; simp [resolveDateRaw, hnes]
    have r2 : ∀ d, resolveDateRaw (some e) d = e := by
      intro d; simp [resolveDateRaw, hne]
    unfold normalize_window
    rw [r1, r2, hs]
    simp only [hbad]
  · intro s e sd ed hs he
    have hnes : s ≠ [] := fun h => by rw [h] at hs; exact Option.noConfusion hs
    have hnee : e ≠ [] := fun h => by rw [h] at he; exact Option.noConfusion he
    have r1 : ∀ d, resolveDateRaw (some s) d = s := by
      intro d; simp [resolveDateRaw, hnes]
    have r2 : ∀ d, resolveDateRaw (some e) d = e := by
      intro d; simp [resolveDateRaw, hnee]
    constructor
    · intro hlt
      unfold normalize_window
      rw [r1, r2, hs]
      simp only [he]
      rw [if_pos hlt]
    · intro hlt
      unfold normalize_window
      rw [r1, r2, hs]
      simp only [he]
      rw [if_neg hlt]

/-- C6 counterexample: the empty string is a present value that does not
parse as `YYYY-MM-DD`, yet the request does not fail — Python falsiness
makes the code treat it as absent and substitute the default window. -/
theorem date_window_empty_counterexample :
    parseDate [] = none ∧
    normalize_window (some []) none ⟨2025, 6, 10⟩ =
      Except.ok (chars "2025-06-03", chars "2025-06-10", ⟨2025, 6, 3⟩, ⟨2025, 6, 10⟩) :=
  ⟨rfl, by rfl⟩

/-- Witness for `date_window_normalization`: a malformed start date is
rejected with the bad-date error naming the raw value. -/
theorem date_window_witness :
    normalize_window (some (chars "bad")) none ⟨2025, 6, 10⟩ =
      Except.error (SearchError.badStartDate (chars "bad")) :=
  (date_window_normalization ⟨2025, 6, 10⟩ (by decide) (by decide)
    (by decide)).2.2.2.2.2.2.2.1 (chars "bad") (by decide) (by rfl) none

/-! ## C3 — the relevance score formula -/

theorem beginsWith_iff_append {n l : List Char} :
    listBeginsWith n l = true ↔ ∃ t, l = n ++ t := by
  induction n generalizing l with
  | nil => simp [listBeginsWith]
  | cons a as ih =>
    cases l with
    | nil =>
      simp [listBeginsWith]
    | cons b bs =>
      simp only [listBeginsWith, Bool.and_eq_true, decide_eq_true_eq]
      constructor
      · rintro ⟨rfl, h⟩
        obtain ⟨t, rfl⟩ := ih.1 h
        exact ⟨t, rfl⟩
      · rintro ⟨t, ht⟩
        cases ht
        exact ⟨rfl, ih.2 ⟨t, rfl⟩⟩

theorem beginsWith_append_right {n l : List Char} (e : List Char)
    (h : listBeginsWith n l = true) : listBeginsWith n (l ++ e) = true := by
  obtain ⟨t, rfl⟩ := beginsWith_iff_append.1 h
  exact beginsWith_iff_append.2 ⟨t ++ e, by rw [List.append_assoc]⟩

theorem head?_append_left {α : Type} {x : List α} (y : List α) (h : x ≠ []) :
    (x ++ y).head? = x.head? := by
  cases x with
  | nil => exact absurd rfl h
  | cons a as => rfl

theorem getLast?_append_right {α : Type} (a : List α) {u : List α} (h : u ≠ []) :
    (a ++ u).getLast? = u.getLast? := by
  rw [← List.head?_reverse, ← List.head?_reverse, List.reverse_append]
  exact head?_append_left a.reverse (by simpa using h)

/-- A needle whose last character is not whitespace cannot match as a
prefix of `h ++ ws` without already matching as a prefix of `h`. -/
theorem beginsWith_append_ws {n0 lc : Char} {nt h ws : List Char}
    (hlast : (n0 :: nt).getLast? = some lc) (hlc : pyIsSpaceB lc = false)
    (hws : ∀ c ∈ ws, pyIsSpaceB c = true)
    (hb : listBeginsWith (n0 :: nt) (h ++ ws) = true) :
    listBeginsWith (n0 :: nt) h = true := by
  obtain ⟨t, ht⟩ := beginsWith_iff_append.1 hb
  by_cases hlen : (n0 :: nt).length ≤ h.length
  · apply beginsWith_iff_append.2
    refine ⟨h.drop (n0 :: nt).length, ?_⟩
    have htake : (n0 :: nt) = h.take (n0 :: nt).length := by
      have : h ++ ws = (n0 :: nt) ++ t := ht
      have h2 : (h ++ ws).take (n0 :: nt).length = (n0 :: nt) := by
        rw [this]
        simp
      rw [List.take_append_eq_append_take] at h2
      rw [Nat.sub_eq_zero_of_le hlen] at h2
      simpa using h2.symm
    calc h = h.take (n0 :: nt).length ++ h.drop (n0 :: nt).length := (List.take_append_drop _ _).symm
    _ = (n0 :: nt) ++ h.drop (n0 :: nt).length := by rw [← htake]
  · exfalso
    have hlen2 : (n0 :: nt).length ≤ h.length + ws.length := by
      have h3 : (h ++ ws).length = ((n0 :: nt) ++ t).length := by rw [ht]
      simp only [List.length_append] at h3
      omega
    have hn : (n0 :: nt) = h ++ ws.take ((n0 :: nt).length - h.length) := by
      have h2 : (h ++ ws).take (n0 :: nt).length = (n0 :: nt) := by
        rw [ht]; simp
      rw [List.take_append_eq_append_take] at h2
      rw [List.take_of_length_le (by omega)] at h2
      exact h2.symm
    set u := ws.take ((n0 :: nt).length - h.length) with hu
    have hlu : u.length = (n0 :: nt).length - h.length := by
      rw [hu, List.length_take]
      omega
    have hune : u ≠ [] := by
      intro hnil
      rw [hnil, List.length_nil] at hlu
      omega
    have : (n0 :: nt).getLast? = u.getLast? := by
      rw [hn]
      exact getLast?_append_right h hune
    rw [hlast] at this
    cases hul : u.getLast? with
    | none => rw [hul] at this; exact Option.noConfusion this
    | some c =>
      rw [hul] at this
      cases this
      have hcu : lc ∈ u := by
        have h4 : u.reverse.head? = some lc := by rw [List.head?_reverse]; exact hul
        have h5 : lc ∈ u.reverse := by
          cases hu2 : u.reverse with
          | nil => rw [hu2] at h4; exact Option.noConfusion h4
          | cons x xs =>
            rw [hu2] at h4
            simp at h4
            rw [h4]
            exact List.mem_cons_self lc xs
        exact List.mem_reverse.1 h5
      have : pyIsSpaceB lc = true := hws lc (List.take_subset _ _ hcu)
      rw [hlc] at this
      exact Bool.noConfusion this

theorem beginsWith_false_of_ws_head {n0 c : Char} (nt r : List Char)
    (hn0 : pyIsSpaceB n0 = false) (hc : pyIsSpaceB c = true) :
    listBeginsWith (n0 :: nt) (c :: r) = false := by
  have hne : n0 ≠ c := fun he => by rw [he, hc] at hn0; exact Bool.noConfusion hn0
  simp [listBeginsWith, hne]

theorem countScan_ws {n0 : Char} (nt : List Char) (hn0 : pyIsSpaceB n0 = false) :
    ∀ (ws : List Char) (k : Nat), (∀ c ∈ ws, pyIsSpaceB c = true) →
      countScan n0 nt ws k = 0 := by
  intro ws
  induction ws with
  | nil => intro k _; rfl
  | cons c r ih =>
    intro k hws
    have hc : pyIsSpaceB c = true := hws c (List.mem_cons_self c r)
    cases k with
    | zero =>
      have hb := beginsWith_false_of_ws_head nt r hn0 hc
      simp only [countScan, hb, Bool.false_eq_true, if_false]
      exact ih 0 (fun x hx => hws x (List.mem_cons_of_mem c hx))
    | succ k =>
      simp only [countScan]
      exact ih k (fun x hx => hws x (List.mem_cons_of_mem c hx))

theorem countScan_dropWhile_ws {n0 : Char} (nt : List Char)
    (hn0 : pyIsSpaceB n0 = false) :
    ∀ t : List Char,
      countScan n0 nt (t.dropWhile pyIsSpaceB) 0 = countScan n0 nt t 0 := by
  intro t
  induction t with
  | nil => rfl
  | cons c r ih =>
    by_cases hc : pyIsSpaceB c
    · have hb := beginsWith_false_of_ws_head nt r hn0 hc
      calc countScan n0 nt ((c :: r).dropWhile pyIsSpaceB) 0
          = countScan n0 nt (r.dropWhile pyIsSpaceB) 0 := by
            rw [List.dropWhile_cons_of_pos hc]
        _ = countScan n0 nt r 0 := ih
        _ = countScan n0 nt (c :: r) 0 := by
            simp only [countScan, hb, Bool.false_eq_true, if_false]
    · rw [List.dropWhile_cons_of_neg hc]

theorem countScan_append_ws {n0 lc : Char} {nt : List Char}
    (hlast : (n0 :: nt).getLast? = some lc) (hlc : pyIsSpaceB lc = false)
    (hn0 : pyIsSpaceB n0 = false) :
    ∀ (h ws : List Char) (k : Nat), (∀ c ∈ ws, pyIsSpaceB c = true) →
      countScan n0 nt (h ++ ws) k = countScan n0 nt h k := by
  intro h
  induction h with
  | nil =>
    intro ws k hws
    rw [List.nil_append]
    exact countScan_ws nt hn0 ws k hws
  | cons c hr ih =>
    intro ws k hws
    rw [List.cons_append]
    cases k with
    | zero =>
      by_cases hb1 : listBeginsWith (n0 :: nt) (c :: hr) = true
      · have hb2 : listBeginsWith (n0 :: nt) (c :: (hr ++ ws)) = true := by
          have := beginsWith_append_right ws hb1
          rwa [List.cons_append] at this
        simp only [countScan, hb2, hb1, if_true]
        rw [ih ws nt.length hws]
      · have hb2 : listBeginsWith (n0 :: nt) (c :: (hr ++ ws)) = false := by
          rw [Bool.eq_false_iff]
          intro hb
          apply hb1
          apply beginsWith_append_ws hlast hlc hws
          rwa [List.cons_append]
        have hb1f : listBeginsWith (n0 :: nt) (c :: hr) = false :=
          Bool.eq_false_iff.2 hb1
        simp only [countScan, hb2, hb1f, Bool.false_eq_true, if_false]
        exact ih ws 0 hws
    | succ k =>
      simp only [countScan]
      exact ih ws k hws

/-- For a trimmed, non-empty needle, Python's `strip` of the haystack does
not change the number of occurrences: the needle's first and last
characters are not whitespace, so no occurrence can overlap the stripped
margins. -/
theorem pyCount_pyStrip (kw t : List Char) (hkw : pyStrip kw = kw)
    (hne : kw ≠ []) : pyCount kw (pyStrip t) = pyCount kw t := by
  cases kw with
  | nil => exact absurd rfl hne
  | cons n0 nt =>
    have hh : pyIsSpaceB n0 = false :=
      pyStrip_head_not_space (show (pyStrip (n0 :: nt)).head? = some n0 by rw [hkw]; rfl)
    cases hlast : (n0 :: nt).getLast? with
    | none =>
      exfalso
      have h4 : (n0 :: nt).reverse.head? = (n0 :: nt).getLast? := List.head?_reverse _
      cases hrev : (n0 :: nt).reverse with
      | nil =>
        have : (n0 :: nt).reverse.length = 0 := by rw [hrev]; rfl
        simp at this
      | cons x xs =>
        rw [hrev] at h4
        rw [hlast] at h4
        exact Option.noConfusion h4
    | some lc =>
      have hlc : pyIsSpaceB lc = false :=
        pyStrip_getLast_not_space (show (pyStrip (n0 :: nt)).getLast? = some lc by rw [hkw]; exact hlast)
      set u := t.dropWhile pyIsSpaceB with hu
      have hdecomp : u = (u.reverse.dropWhile pyIsSpaceB).reverse ++
          (u.reverse.takeWhile pyIsSpaceB).reverse := by
        have h1 : u.reverse.takeWhile pyIsSpaceB ++ u.reverse.dropWhile pyIsSpaceB =
            u.reverse := List.takeWhile_append_dropWhile pyIsSpaceB u.reverse
        have h2 := congrArg List.reverse h1
        rw [List.reverse_append, List.reverse_reverse] at h2
        exact h2.symm
      have hws2 : ∀ c ∈ (u.reverse.takeWhile pyIsSpaceB).reverse, pyIsSpaceB c = true := by
        intro c hc
        rw [List.mem_reverse] at hc
        exact List.mem_takeWhile_imp hc
      have e1 : countScan n0 nt u 0 = countScan n0 nt t 0 :=
        countScan_dropWhile_ws nt hh t
      have e2 : countScan n0 nt u 0 =
          countScan n0 nt ((u.reverse.dropWhile pyIsSpaceB).reverse) 0 := by
        conv_lhs => rw [hdecomp]
        exact countScan_append_ws hlast hlc hh _ _ 0 hws2
      show countScan n0 nt (pyStrip t) 0 = countScan n0 nt t 0
      have hst : pyStrip t = (u.reverse.dropWhile pyIsSpaceB).reverse := rfl
      rw [hst, ← e2, e1]

/-- C3: for every trimmed term (the data model's `SearchTerm` is a trimmed
string) the relevance score is twice the number of case-sensitive,
non-tokenized (non-overlapping) substring occurrences of the term in the
title plus the occurrences in the summary; the empty term always scores
0; and for term "AI", title "AI policy AI", summary "new AI rules" the
score is 2*2 + 1 = 5. -/
theorem relevance_score_spec :
    (∀ kw title desc : List Char, pyStrip kw = kw →
      (kw = [] → relevance_score kw title desc = 0) ∧
      (kw ≠ [] → relevance_score kw title desc =
        2 * pyCount kw title + pyCount kw desc)) ∧
    (∀ title desc : List Char, relevance_score [] title desc = 0) ∧
    relevance_score (chars "AI") (chars "AI policy AI") (chars "new AI rules") = 5 := by
  refine ⟨?_, fun t d => rfl, by decide⟩
  intro kw title desc hkw
  constructor
  · intro h
    subst h
    rfl
  · intro hne
    unfold relevance_score
    rw [hkw, if_neg hne,
      pyCount_pyStrip kw title hkw hne, pyCount_pyStrip kw desc hkw hne]
    omega

/-- Witness for `relevance_score_spec`: the scoring formula at the spec's
concrete example. -/
theorem relevance_score_witness :
    relevance_score (chars "AI") (chars "AI policy AI") (chars "new AI rules") =
      2 * pyCount (chars "AI") (chars "AI policy AI") +
        pyCount (chars "AI") (chars "new AI rules") :=
  (relevance_score_spec.1 (chars "AI") (chars "AI policy AI")
    (chars "new AI rules") (by decide)).2 (by decide)
